import Mathlib

set_option maxHeartbeats 1000000
set_option linter.unusedVariables false

/-!
Verification development for the local RAG pipeline of `src/src/app/page.tsx`:
chunking, (fallback) embedding, persistent vector storage, similarity
retrieval and prompt assembly.

Modelling conventions:
* JS strings are modelled as `String` / `List Char` (one `Char` per UTF-16
  unit; all inputs of interest are BMP text, where code points and UTF-16
  units coincide).
* JS numbers in the embedding/similarity path are modelled as exact
  rationals `ℚ`.  The one place where IEEE semantics is essential - the
  `NaN` produced by `0/0` and by `0 * undefined` inside `cosineSimilarity` -
  is tracked explicitly by a `nan` flag; a `NaN` score compares `false`
  against the `0.3` relevance floor, exactly as in JS.
* Bitwise 32-bit integer operations (`<< 5`, `|= 0`, `& hash`) are modelled
  by exact wrap-around on `ℤ`.
-/

/-- Truncation of an integer to a signed 32-bit value, the effect of the JS
coercions `| 0`, `& hash` and of `<<` on its operands/result. -/
def toInt32 (x : ℤ) : ℤ :=
  let r := x % 4294967296
  if r < 2147483648 then r else r - 4294967296

/-- The rolling hash of `generateMockEmbedding` / `generateSmartMockEmbedding`:
`hash = ((hash << 5) - hash) + word.charCodeAt(i)` followed by the 32-bit
coercion (`hash |= 0` resp. `hash = hash & hash`).  `hash << 5` is
`toInt32 (hash * 32)` because JS `<<` operates on int32. -/
def jsHash (w : List Char) : ℤ :=
  w.foldl (fun hash c => toInt32 (toInt32 (hash * 32) - hash + (c.toNat : ℤ))) 0

/-- JS `%` (fmod).  For the nonnegative operands that occur in the embedding
code `x % y = x - y * ⌊x / y⌋` (truncation and floor agree on nonnegative
quotients). -/
def jsFmod (a b : ℚ) : ℚ := a - b * (⌊a / b⌋ : ℚ)

/-- JS `String.prototype.split` on a one-character-class regex with `+`
(`/\s+/`, `/[.!?]+/`): the string is cut at every maximal run of characters
matched by `p`; a leading (resp. trailing) run contributes a leading
(resp. trailing) empty segment, and `"".split` yields `[""]`. -/
def jsSplitRuns (p : Char → Bool) : List Char → List (List Char)
  | [] => [[]]
  | c :: t =>
    let r := jsSplitRuns p t
    if p c then
      match t with
      | [] => [] :: r
      | c2 :: _ => if p c2 then r else [] :: r
    else
      match r with
      | s :: rest => (c :: s) :: rest
      | [] => [[c]]

/-- `text.split(/\s+/)` as a list of words. -/
def jsSplitWs (s : String) : List String :=
  (jsSplitRuns (fun c => c.isWhitespace) s.data).map String.mk

/-- JS `String.prototype.lastIndexOf(pat)`: the largest start index of an
occurrence of `pat`, or `-1` when there is none. -/
def jsLastIndexOfSub (l pat : List Char) : ℤ :=
  match ((List.range (l.length + 1)).filter
      (fun i => (l.drop i).take pat.length == pat)).getLast? with
  | some i => (i : ℤ)
  | none => -1

/-- The `words.forEach` body of `generateMockEmbedding` (page.tsx:218-226):
hash the word, and update slot `|hash| % 512` by
`embedding[index] = (embedding[index] + 1) % 1.0`. -/
def mockWordStep (emb : List ℚ) (word : String) : List ℚ :=
  let hash := jsHash word.data
  let index := hash.natAbs % 512
  emb.set index (jsFmod (emb.getD index 0 + 1) 1)

/-- `EmbeddingProcessor.generateMockEmbedding` (page.tsx:214-229), the
fallback used when the native embedding path throws: a 512-slot array,
updated once per lowercased whitespace-split word. -/
def generateMockEmbedding (text : String) : List ℚ :=
  (jsSplitWs text.toLower).foldl mockWordStep (List.replicate 512 (0 : ℚ))

def questionWords : List String :=
  ["what", "how", "why", "when", "where", "who", "which", "explain", "describe", "show"]

def importantVerbs : List String :=
  ["analyze", "compare", "calculate", "find", "list", "identify", "summarize"]

/-- The `words.forEach` body of `generateSmartMockEmbedding`
(page.tsx:119-140): clean the word, skip it when shorter than 2, otherwise
hash it, pick its salience weight (later tests override earlier ones, as
the sequential `if` reassignments do), and bump the 4 positions
`|hash + i*7919| % 384` by the weight modulo 1. -/
def smartWordStep (emb : List ℚ) (word : String) : List ℚ :=
  let cleanWord := word.data.filter (fun c => ('a' ≤ c && c ≤ 'z') || ('0' ≤ c && c ≤ '9'))
  if cleanWord.length < 2 then emb
  else
    let hash := jsHash cleanWord
    let weight : ℚ :=
      let w1 := (0.15 : ℚ)
      let w2 := if questionWords.contains (String.mk cleanWord) then (0.4 : ℚ) else w1
      let w3 := if importantVerbs.contains (String.mk cleanWord) then (0.35 : ℚ) else w2
      if cleanWord.length > 6 then (0.25 : ℚ) else w3
    (List.range 4).foldl (fun e i =>
      let index := (hash + i * 7919).natAbs % 384
      e.set index (jsFmod (e.getD index 0 + weight) 1)) emb

/-- `EmbeddingProcessor.generateSmartMockEmbedding` (page.tsx:110-148): a
384-slot array; each cleaned word (length ≥ 2) is hashed into 4 positions
`|hash + i*7919| % 384` and bumped by a salience weight, then slots 0..2
are overwritten with coarse document statistics.  (This private method has
no caller in the source.) -/
def generateSmartMockEmbedding (text : String) : List ℚ :=
  let words := jsSplitWs text.toLower
  let sentences := jsSplitRuns (fun c => c == '.' || c == '!' || c == '?') text.data
  let embedding := words.foldl smartWordStep (List.replicate 384 (0 : ℚ))
  let embedding := embedding.set 0 (min ((words.length : ℚ) / 150) 1)
  let embedding := embedding.set 1 (if text.data.contains '?' then (0.9 : ℚ) else (0.1 : ℚ))
  embedding.set 2 (min ((sentences.length : ℚ) / 15) 1)

/-- Outcome of the native embedding path (`wllama.createEmbedding`), an
external collaborator: either a vector or a thrown error. -/
inductive NativeOutcome where
  | ok : List ℚ → NativeOutcome
  | failed : NativeOutcome
deriving DecidableEq

/-- `EmbeddingProcessor.generateEmbedding` (page.tsx:197-212): returns the
native result, falling back to `generateMockEmbedding` when the native
path throws. -/
def generateEmbedding (native : NativeOutcome) (text : String) : List ℚ :=
  match native with
  | NativeOutcome.ok v => v
  | NativeOutcome.failed => generateMockEmbedding text

/-- `a.reduce((sum, val, i) => sum + val * b[i], 0)` over the indices where
`b[i]` is defined (`zip` truncates at the shorter list; the `NaN` that JS
produces from `val * undefined` when `b` is shorter than `a` is recorded
by the `nan` flag of `SimScore`). -/
def jsDot (a b : List ℚ) : ℚ :=
  (a.zip b).foldl (fun sum p => sum + p.1 * p.2) 0

/-- `l.reduce((sum, val) => sum + val * val, 0)`, the squared magnitude. -/
def jsMag2 (l : List ℚ) : ℚ :=
  l.foldl (fun sum val => sum + val * val) 0

/-- Exact value of one `cosineSimilarity` call (page.tsx:245-250).  The JS
float result is `dot / (√magA2 * √magB2)`; `nan` is `true` exactly when
that float is `NaN`: either `b` is shorter than `a` (so the dot-product
reduce hits `b[i] = undefined`), or the denominator is `0` (then the
numerator is `0` or `NaN` as well, giving `0/0`). -/
structure SimScore where
  dot : ℚ
  magA2 : ℚ
  magB2 : ℚ
  nan : Bool
deriving DecidableEq

/-- `cosineSimilarity(a, b)` (page.tsx:245-250) as an exact `SimScore`. -/
def cosineSimilarity (a b : List ℚ) : SimScore :=
  let dotProduct := jsDot a b
  let magnitudeA2 := jsMag2 a
  let magnitudeB2 := jsMag2 b
  { dot := dotProduct, magA2 := magnitudeA2, magB2 := magnitudeB2,
    nan := decide (b.length < a.length) || decide (magnitudeA2 * magnitudeB2 = 0) }

/-- The real number a non-`NaN` `SimScore` denotes:
`dotProduct / (magnitudeA * magnitudeB)` with the magnitudes the square
roots of the stored squared magnitudes. -/
noncomputable def simValue (s : SimScore) : ℝ :=
  (s.dot : ℝ) / (Real.sqrt (s.magA2 : ℝ) * Real.sqrt (s.magB2 : ℝ))

/-- A computable key that is strictly monotone in `simValue` on non-`NaN`
scores: `sign(dot) * dot² / (magA2 * magB2)` (the image of the score under
the strictly increasing map `x ↦ sign(x)·x²`). -/
def scoreKey (s : SimScore) : ℚ :=
  (if s.dot < 0 then -1 else 1) * s.dot ^ 2 / (s.magA2 * s.magB2)

/-- The filter `item.score > 0.3` of `searchDocuments` (page.tsx:423),
characterized exactly over the rational components: a `NaN` score compares
`false`; otherwise `dot/√(magA2·magB2) > 3/10` iff `dot > 0` and
`100·dot² > 9·magA2·magB2`. -/
def scoreAbove (s : SimScore) : Bool :=
  !s.nan && decide (0 < s.dot) && decide (9 * (s.magA2 * s.magB2) < 100 * s.dot ^ 2)

/-- Position metadata of a stored chunk (page.tsx:82-86). -/
structure ChunkMetadata where
  chunkIndex : ℕ
  startPos : ℕ
  endPos : ℕ
deriving DecidableEq

/-- `DocumentChunk` (page.tsx:77-87). -/
structure DocumentChunk where
  id : String
  documentId : String
  content : String
  embedding : List ℚ
  metadata : ChunkMetadata
deriving DecidableEq

/-- `StoredDocument` (page.tsx:89-97); `processedAt` is an abstract timestamp. -/
structure StoredDocument where
  id : String
  name : String
  type : String
  size : ℕ
  content : String
  chunks : List DocumentChunk
  processedAt : ℕ
deriving DecidableEq

/-- The chunk scan of `searchDocuments`: all chunks of all stored documents,
in document order (page.tsx:409-413). -/
def allChunksOf (documents : List StoredDocument) : List DocumentChunk :=
  documents.foldl (fun acc doc => acc ++ doc.chunks) []

/-- The sort comparator `(a, b) => b.score - a.score` (page.tsx:424): `a`
precedes `b` iff `a`'s score is at least `b`'s.  On the non-`NaN` scores
that survive the `> 0.3` filter this is exactly descending order of
`simValue`; `scoreKey` realizes the comparison computably. -/
def chunkGE (x y : DocumentChunk × SimScore) : Bool :=
  decide (scoreKey y.2 ≤ scoreKey x.2)

/-- `DocumentProcessor.searchDocuments` (page.tsx:391-432), parameterized by
the already-computed query embedding (the call
`this.embeddingModel.generateEmbedding(query)` is asynchronous I/O): score
every stored chunk, keep scores `> 0.3`, sort descending (JS `sort` with a
consistent comparator is stable, as is `List.mergeSort`), return the top
`limit` chunks. -/
def searchDocuments (queryEmbedding : List ℚ) (documents : List StoredDocument)
    (limit : ℕ) : List DocumentChunk :=
  let scoredChunks := (allChunksOf documents).map
    (fun chunk => (chunk, cosineSimilarity queryEmbedding chunk.embedding))
  let relevantChunks :=
    ((((scoredChunks.filter (fun item => scoreAbove item.2)).mergeSort chunkGE).take
      limit).map (fun item => item.1))
  relevantChunks

/-- Modelled from the spec: the durable `ChunkStore` (§4.3) realized by an
IndexedDB object store with `keyPath: 'id'` (page.tsx:288); the store
itself is the browser's IndexedDB, not repository code.  `put` is an
upsert keyed on `id`. -/
def putDocument (store : List StoredDocument) (doc : StoredDocument) :
    List StoredDocument :=
  if store.any (fun d => d.id == doc.id) then
    store.map (fun d => if d.id == doc.id then doc else d)
  else store ++ [doc]

/-- `DocumentProcessor.getAllDocuments` (page.tsx:434-450): `getAll` over the
modelled store. -/
def getAllDocuments (store : List StoredDocument) : List StoredDocument :=
  store

/-- `DocumentProcessor.deleteDocument` (page.tsx:452-468): IndexedDB
`store.delete(documentId)`, which succeeds whether or not the key is
present. -/
def deleteDocument (store : List StoredDocument) (documentId : String) :
    List StoredDocument :=
  store.filter (fun d => !(d.id == documentId))

/-- The midpoint test `idx > chunkSize * 0.5` of `chunkDocument`
(page.tsx:318, 324), in the exactly equivalent integer form
`chunkSize < 2 * idx` (the product `chunkSize * 0.5` is exact in IEEE
arithmetic, so no rounding intervenes; see `midpoint_iff`). -/
def pastMidpoint (chunkSize : ℕ) (idx : ℤ) : Bool :=
  decide ((chunkSize : ℤ) < 2 * idx)

/-- The sentence-cut stage of one `chunkDocument` iteration (page.tsx:314-320):
start from `end = start + chunkSize`; if the last `'.'` of
`content.slice(start, end)` lies past `chunkSize * 0.5`, move `end` just
past it. -/
def sentenceCut (content : List Char) (start chunkSize : ℕ) : ℕ :=
  let window := (content.drop start).take chunkSize
  let sentenceEnd := jsLastIndexOfSub window ['.']
  if pastMidpoint chunkSize sentenceEnd then start + sentenceEnd.toNat + 1
  else start + chunkSize

/-- The window-end computation of one iteration of
`DocumentProcessor.chunkDocument` (page.tsx:313-327): the sentence-cut
stage, then - on the slice bounded by the updated `end` - if the last
`"\n\n"` lies past `chunkSize * 0.5`, move `end` just past it (this second
test can override the sentence cut). -/
def windowEnd (content : List Char) (start chunkSize : ℕ) : ℕ :=
  let e1 := sentenceCut content start chunkSize
  let window2 := (content.drop start).take (e1 - start)
  let paragraphEnd := jsLastIndexOfSub window2 ['\n', '\n']
  if pastMidpoint chunkSize paragraphEnd then start + paragraphEnd.toNat + 2
  else e1

def isWS (c : Char) : Bool := c.isWhitespace

/-- Left part of JS `String.prototype.trim`. -/
def trimLeftChars (l : List Char) : List Char := l.dropWhile isWS

/-- Right part of JS `String.prototype.trim`. -/
def trimRightChars (l : List Char) : List Char := (l.reverse.dropWhile isWS).reverse

/-- JS `String.prototype.trim` on the character list. -/
def trimChars (l : List Char) : List Char := trimRightChars (trimLeftChars l)

/-- The chunk emitted by one loop iteration:
`content.slice(start, end).trim()` with `end = windowEnd content start
chunkSize` (page.tsx:328). -/
def windowChunk (content : List Char) (start chunkSize : ℕ) : List Char :=
  trimChars ((content.drop start).take (windowEnd content start chunkSize - start))

/-- The `while` loop of `DocumentProcessor.chunkDocument` (page.tsx:309-338)
with explicit fuel (`none` = the loop would still be running after `fuel`
iterations; for ill-chosen parameters, e.g. `overlap ≥ chunkSize`, the JS
loop genuinely diverges): emit the trimmed window chunk when nonempty,
advance `start` to `end - overlap`, stop once `start ≥ content.length`. -/
def chunkAux (content : List Char) (chunkSize overlap : ℕ) :
    ℕ → ℕ → Option (List (List Char))
  | 0, _ => none
  | fuel + 1, start =>
    if start < content.length then
      match chunkAux content chunkSize overlap fuel
          (windowEnd content start chunkSize - overlap) with
      | none => none
      | some rest =>
        some (if (windowChunk content start chunkSize).length > 0 then
            windowChunk content start chunkSize :: rest
          else rest)
    else some []

/-- `DocumentProcessor.chunkDocument(content, chunkSize, overlap)`
(defaults `chunkSize = 500`, `overlap = 50`); `content.length + 1` units of
fuel suffice whenever the loop terminates, since `start` strictly
increases. -/
def chunkDocument (content : List Char) (chunkSize overlap : ℕ) :
    List (List Char) :=
  (chunkAux content chunkSize overlap (content.length + 1) 0).getD []

/-- Modelled from the spec: the per-window cut rule as C5 states it - cut at
the last sentence terminator when it falls past the midpoint; ONLY when no
such terminator exists consider the last paragraph break of the (original)
window under the same midpoint rule; otherwise the raw boundary.  Used to
compare the claimed rule with the source's `windowEnd`. -/
def claimedWindowEnd (content : List Char) (start chunkSize : ℕ) : ℕ :=
  let window := (content.drop start).take chunkSize
  let sentenceEnd := jsLastIndexOfSub window ['.']
  if pastMidpoint chunkSize sentenceEnd then start + sentenceEnd.toNat + 1
  else
    let paragraphEnd := jsLastIndexOfSub window ['\n', '\n']
    if pastMidpoint chunkSize paragraphEnd then start + paragraphEnd.toNat + 2
    else start + chunkSize

/-- The chunk one iteration of the claimed rule would emit. -/
def claimedWindowChunk (content : List Char) (start chunkSize : ℕ) : List Char :=
  trimChars ((content.drop start).take (claimedWindowEnd content start chunkSize - start))

/-- The chunking loop driven by the claimed cut rule instead of the
source's. -/
def claimedChunkAux (content : List Char) (chunkSize overlap : ℕ) :
    ℕ → ℕ → Option (List (List Char))
  | 0, _ => none
  | fuel + 1, start =>
    if start < content.length then
      match claimedChunkAux content chunkSize overlap fuel
          (claimedWindowEnd content start chunkSize - overlap) with
      | none => none
      | some rest =>
        some (if (claimedWindowChunk content start chunkSize).length > 0 then
            claimedWindowChunk content start chunkSize :: rest
          else rest)
    else some []

/-- The chunker as claim C5 describes it. -/
def claimedChunkDocument (content : List Char) (chunkSize overlap : ℕ) :
    List (List Char) :=
  (claimedChunkAux content chunkSize overlap (content.length + 1) 0).getD []

/-- Conversation roles (page.tsx:46-52). -/
inductive ChatRole where
  | user : ChatRole
  | assistant : ChatRole
deriving DecidableEq

/-- A conversation turn; attachments and timestamp are unread by the
assembler. -/
structure Message where
  role : ChatRole
  content : String
  timestamp : ℕ
deriving DecidableEq

/-- The template selector state (page.tsx:585):
`useState<'gemma' | 'qwen' | 'llama' | 'chatml'>`. -/
inductive ChatTemplate where
  | gemma : ChatTemplate
  | qwen : ChatTemplate
  | llama : ChatTemplate
  | chatml : ChatTemplate
deriving DecidableEq

/-- Modelled from the spec: the per-variant user-turn wrapper of the §4.5
delimiter table (present in the source only as commented-out template
code; the active `buildConversationPrompt` never consults the template). -/
def templateUserWrap (tpl : ChatTemplate) (c : String) : String :=
  match tpl with
  | ChatTemplate.gemma => "<start_of_turn>user\n" ++ c ++ "<end_of_turn>"
  | ChatTemplate.qwen => "<|im_start|>user\n" ++ c ++ "<|im_end|>"
  | ChatTemplate.llama => "[INST] " ++ c ++ " [/INST]"
  | ChatTemplate.chatml => "<|im_start|>user\n" ++ c ++ "<|im_end|>"

/-- Modelled from the spec: the per-variant empty assistant-turn opener of
§4.5 (for the llama variant the assistant turn is unwrapped, so the opener
is the empty string). -/
def templateAssistantOpener (tpl : ChatTemplate) : String :=
  match tpl with
  | ChatTemplate.gemma => "<start_of_turn>model\n"
  | ChatTemplate.qwen => "<|im_start|>assistant\n"
  | ChatTemplate.llama => ""
  | ChatTemplate.chatml => "<|im_start|>assistant\n"

/-- The fixed preamble of the document-priority path (page.tsx:1251). -/
def ragPreamble : String :=
  "You have access to the following documents. Use this information to answer the question. If the answer can be found in these documents, prioritize this information over general knowledge.\n\n"

/-- The instruction block of the document-priority path (page.tsx:1261-1265). -/
def ragInstructions : String :=
  "INSTRUCTIONS:\n- Answer based on the reference documents above\n- If the documents contain the answer, use them as the primary source\n- Only use general knowledge if the documents don\x27t contain the answer\n- Be precise and cite information from the documents when possible\n"

/-- One labeled chunk block of the document-priority path (page.tsx:1255-1258):
`[DOCUMENT ${index+1} - ${chunk.documentId}]:\n${chunk.content}\n\n`. -/
def chunkBlock (p : ℕ × DocumentChunk) : String :=
  "[DOCUMENT " ++ toString (p.1 + 1) ++ " - " ++ p.2.documentId ++ "]:\n"
    ++ p.2.content ++ "\n\n"

/-- `buildConversationPrompt` (page.tsx:1242-1280), parameterized by the
retrieval result (`documentProcessor.searchDocuments(newUserMessage, 3)`
is asynchronous I/O; when no documents are stored the search is skipped
and the chunk list is empty).  With retrieved chunks it emits the preamble,
the labeled chunks, the question and the instruction block and returns
early; otherwise the general-knowledge framing.  The `messages` parameter
is accepted and never read, exactly as in the source (the history-template
code is commented out). -/
def buildConversationPrompt (relevantChunks : List DocumentChunk)
    (messages : List Message) (newUserMessage : String) : String :=
  if relevantChunks.length > 0 then
    let prompt := "" ++ ragPreamble ++ "REFERENCE DOCUMENTS:\n" ++ "====================\n"
    let prompt := relevantChunks.enum.foldl (fun p ic => p ++ chunkBlock ic) prompt
    prompt ++ "QUESTION: " ++ newUserMessage ++ "\n\n" ++ ragInstructions ++ "ANSWER: "
  else
    "" ++ "Question: " ++ newUserMessage ++ "\n\n"
      ++ "Answer based on your general knowledge: "

/-- The document-priority prompt in the shape the spec describes it: fixed
preamble, then every chunk labeled with its source document id, then the
literal question, then the instruction block. -/
def ragPromptSpec (chunks : List DocumentChunk) (question : String) : String :=
  ragPreamble ++ "REFERENCE DOCUMENTS:\n" ++ "====================\n"
    ++ String.join (chunks.enum.map chunkBlock)
    ++ "QUESTION: " ++ question ++ "\n\n" ++ ragInstructions ++ "ANSWER: "

/-- The initialization-relevant state of an `EmbeddingProcessor` instance
(page.tsx:105-108): the `isInitialized` flag and the cached `initPromise`
(promises identified by an abstract token).  `uninitialized` is
`⟨false, none⟩`, `initializing` is `⟨false, some p⟩`, `ready` is
`⟨true, some p⟩`. -/
structure EPState where
  isInitialized : Bool
  initPromise : Option ℕ
deriving DecidableEq

/-- What one `init()` call does before any asynchronous work resolves. -/
inductive InitCall where
  | alreadyReady : InitCall
  | joinExisting : ℕ → InitCall
  | started : ℕ → InitCall
deriving DecidableEq

/-- The synchronous prefix of `EmbeddingProcessor.init` (page.tsx:150-195):
return immediately when initialized; return the cached in-flight promise
when one exists; otherwise cache and return a fresh promise. -/
def initStep (s : EPState) (fresh : ℕ) : EPState × InitCall :=
  if s.isInitialized then (s, InitCall.alreadyReady)
  else
    match s.initPromise with
    | some p => (s, InitCall.joinExisting p)
    | none => ({ s with initPromise := some fresh }, InitCall.started fresh)

/-- Resolution of the in-flight initialization body (page.tsx:154-192): on
success set `isInitialized = true` (the promise stays cached); on failure
clear `initPromise` (and rethrow), leaving `isInitialized` untouched. -/
def settleInit (s : EPState) (success : Bool) : EPState :=
  if success then { s with isInitialized := true }
  else { s with initPromise := none }

/-! ## Sample data used by witnesses -/

/-- A concrete chunk used by witness instantiations. -/
def sampleChunk : DocumentChunk :=
  { id := "c0", documentId := "notes.txt",
    content := "Paris is the capital of France.",
    embedding := [1, 0], metadata := ⟨0, 0, 31⟩ }

/-- A concrete stored document used by witness instantiations. -/
def sampleDocument : StoredDocument :=
  { id := "notes.txt-1", name := "notes.txt", type := "text/plain", size := 31,
    content := "Paris is the capital of France.",
    chunks := [sampleChunk], processedAt := 0 }

/-! ## General helper lemmas -/

lemma getD_replicate_zero (n i : ℕ) : (List.replicate n (0 : ℚ)).getD i 0 = 0 := by
  induction n generalizing i with
  | zero => simp
  | succ n ih =>
    cases i with
    | zero => simp [List.replicate]
    | succ i => simp only [List.replicate, List.getD_cons_succ]; exact ih i

lemma set_replicate_zero (n i : ℕ) :
    (List.replicate n (0 : ℚ)).set i 0 = List.replicate n 0 := by
  induction n generalizing i with
  | zero => simp
  | succ n ih =>
    cases i with
    | zero => simp [List.replicate]
    | succ i => simp [List.replicate, ih i]

lemma jsFmod_zero_add_one : jsFmod (0 + 1) 1 = 0 := by
  simp [jsFmod]

lemma mockWordStep_zero (w : String) :
    mockWordStep (List.replicate 512 0) w = List.replicate 512 0 := by
  show (List.replicate 512 (0 : ℚ)).set ((jsHash w.data).natAbs % 512)
      (jsFmod ((List.replicate 512 (0 : ℚ)).getD ((jsHash w.data).natAbs % 512) 0 + 1) 1)
      = List.replicate 512 0
  rw [getD_replicate_zero, jsFmod_zero_add_one, set_replicate_zero]

/-- The fallback embedding is the all-zero 512-vector: every slot update
computes `(0 + 1) % 1.0 = 0`. -/
lemma generateMockEmbedding_eq_zero (t : String) :
    generateMockEmbedding t = List.replicate 512 0 := by
  show (jsSplitWs t.toLower).foldl mockWordStep (List.replicate 512 (0 : ℚ))
      = List.replicate 512 0
  generalize jsSplitWs t.toLower = ws
  induction ws with
  | nil => rfl
  | cons w ws ih => rw [List.foldl_cons, mockWordStep_zero]; exact ih

lemma generateMockEmbedding_length (t : String) :
    (generateMockEmbedding t).length = 512 := by
  rw [generateMockEmbedding_eq_zero, List.length_replicate]

lemma foldl_length_inv {β : Type} (f : List ℚ → β → List ℚ)
    (h : ∀ e x, (f e x).length = e.length) :
    ∀ (l : List β) (e : List ℚ), (l.foldl f e).length = e.length := by
  intro l
  induction l with
  | nil => intro e; rfl
  | cons x l ih => intro e; rw [List.foldl_cons, ih, h]

lemma smartWordStep_length (e : List ℚ) (w : String) :
    (smartWordStep e w).length = e.length := by
  unfold smartWordStep
  dsimp only
  split
  · rfl
  · exact foldl_length_inv _ (fun e' i => List.length_set ..) _ _

lemma generateSmartMockEmbedding_length (t : String) :
    (generateSmartMockEmbedding t).length = 384 := by
  show ((((jsSplitWs t.toLower).foldl smartWordStep
      (List.replicate 384 (0 : ℚ))).set 0 _ |>.set 1 _ |>.set 2 _)).length = 384
  rw [List.length_set, List.length_set, List.length_set,
    foldl_length_inv smartWordStep smartWordStep_length, List.length_replicate]

/-! ## C1 - dimension of the fallback embedding -/

/-- Claim C1 counterexample: the fallback embedding actually produced when
the native path fails (`generateMockEmbedding`, returned by the `catch` of
`generateEmbedding`) has length 512, not 384, already on the concrete
input `"hello"`. -/
theorem c1_fallback_dim_counterexample :
    (generateEmbedding NativeOutcome.failed "hello").length = 512
    ∧ (generateEmbedding NativeOutcome.failed "hello").length ≠ 384 := by
  have h : (generateEmbedding NativeOutcome.failed "hello").length = 512 :=
    generateMockEmbedding_length "hello"
  exact ⟨h, by rw [h]; decide⟩

/-- Claim C1 (amended): the fallback embedding produced on native-path
failure is a vector of length exactly 512 (not 384), and every fallback
call yields that same length; the 384-slot generator
(`generateSmartMockEmbedding`) is a private method with no caller. -/
theorem c1_fallback_dim (t₁ t₂ : String) :
    (generateEmbedding NativeOutcome.failed t₁).length = 512
    ∧ (generateEmbedding NativeOutcome.failed t₁).length
        = (generateEmbedding NativeOutcome.failed t₂).length
    ∧ (generateSmartMockEmbedding t₁).length = 384 := by
  refine ⟨generateMockEmbedding_length t₁, ?_, generateSmartMockEmbedding_length t₁⟩
  rw [show generateEmbedding NativeOutcome.failed t₁ = generateMockEmbedding t₁ from rfl,
    show generateEmbedding NativeOutcome.failed t₂ = generateMockEmbedding t₂ from rfl,
    generateMockEmbedding_length, generateMockEmbedding_length]

/-! ## C8 - init state machine -/

/-- Claim C8: over the states uninitialized `⟨false, none⟩`, initializing
`⟨false, some p⟩` and ready `⟨true, _⟩`: an `init()` call while an
initialization is in flight starts nothing new and returns the same
in-flight promise; after success `init()` does no work; after a failed
initialization the provider is back in the uninitialized state and the
next call starts a fresh attempt. -/
theorem c8_init_idempotent_retryable (s : EPState) (fresh p q : ℕ) :
    (s.isInitialized = false → s.initPromise = some p →
      initStep s fresh = (s, InitCall.joinExisting p))
    ∧ (s.isInitialized = true → initStep s fresh = (s, InitCall.alreadyReady))
    ∧ ((settleInit ⟨false, some q⟩ false).isInitialized = false
        ∧ (settleInit ⟨false, some q⟩ false).initPromise = none
        ∧ initStep (settleInit ⟨false, some q⟩ false) fresh
            = (⟨false, some fresh⟩, InitCall.started fresh)) := by
  refine ⟨fun h1 h2 => ?_, fun h => ?_, rfl, rfl, rfl⟩
  · simp [initStep, h1, h2]
  · simp [initStep, h]

/-- Witness for C8 at a concrete state: joining the in-flight promise `7`. -/
theorem c8_init_idempotent_retryable_witness :
    (⟨false, some 7⟩ : EPState).isInitialized = false
    ∧ (⟨false, some 7⟩ : EPState).initPromise = some 7
    ∧ initStep ⟨false, some 7⟩ 9 = (⟨false, some 7⟩, InitCall.joinExisting 7) :=
  ⟨rfl, rfl, (c8_init_idempotent_retryable ⟨false, some 7⟩ 9 7 0).1 rfl rfl⟩

/-! ## C7 - store round trip -/

lemma putDocument_mem (store : List StoredDocument) (doc : StoredDocument) :
    doc ∈ putDocument store doc := by
  unfold putDocument
  split
  · next h =>
    rw [List.any_eq_true] at h
    obtain ⟨d, hd, hid⟩ := h
    exact List.mem_map.mpr ⟨d, hd, by simp [hid]⟩
  · exact List.mem_append.mpr (Or.inr (List.mem_singleton.mpr rfl))

lemma deleteDocument_not_mem (store : List StoredDocument) (docId : String) :
    ∀ d ∈ deleteDocument store docId, d.id ≠ docId := by
  intro d hd
  have := (List.mem_filter.mp hd).2
  simpa using this

lemma deleteDocument_idem (store : List StoredDocument) (docId : String) :
    deleteDocument (deleteDocument store docId) docId = deleteDocument store docId := by
  unfold deleteDocument
  rw [List.filter_filter]
  exact List.filter_congr (fun d _ => by cases h : d.id == docId <;> simp [h])

/-- Claim C7: storing a document and reading all documents back yields a
record whose chunk set (content and embeddings included) is exactly what
was stored; after deleting an id no returned document carries it; and
deleting twice equals deleting once. -/
theorem c7_store_roundtrip (store : List StoredDocument) (doc : StoredDocument)
    (docId : String) :
    (∃ d ∈ getAllDocuments (putDocument store doc), d = doc ∧ d.chunks = doc.chunks)
    ∧ (∀ d ∈ getAllDocuments (deleteDocument store docId), d.id ≠ docId)
    ∧ deleteDocument (deleteDocument store docId) docId = deleteDocument store docId :=
  ⟨⟨doc, putDocument_mem store doc, rfl, rfl⟩,
    deleteDocument_not_mem store docId,
    deleteDocument_idem store docId⟩

/-- Witness for C7 at the concrete sample document and the empty store. -/
theorem c7_store_roundtrip_witness :
    ∃ d ∈ getAllDocuments (putDocument [] sampleDocument),
      d = sampleDocument ∧ d.chunks = sampleDocument.chunks :=
  (c7_store_roundtrip [] sampleDocument "gone.txt").1

/-! ## C6 - the no-evidence path ignores the template variants -/

lemma not_suffix_of_getLast_ne {α : Type} {l₁ l₂ : List α}
    (h1 : l₁ ≠ []) (h2 : l₁.getLast? ≠ l₂.getLast?) : ¬ l₁ <:+ l₂ := by
  rintro ⟨t, ht⟩
  exact h2 (by rw [← ht, List.getLast?_append_of_ne_nil _ h1])

lemma noEvidencePrompt_eq (messages : List Message) (q : String) :
    buildConversationPrompt [] messages q
      = "Question: " ++ q ++ "\n\n" ++ "Answer based on your general knowledge: " :=
  rfl

lemma noEvidencePrompt_getLast (messages : List Message) (q : String) :
    (buildConversationPrompt [] messages q).data.getLast? = some ' ' := by
  rw [noEvidencePrompt_eq, String.data_append, String.data_append,
    List.getLast?_append_of_ne_nil _
      (show ("Answer based on your general knowledge: ").data ≠ [] by decide)]
  decide

/-- Claim C6 counterexample: with variant A (gemma), empty history, message
`"Hi"` and zero retrieved chunks, the assembled prompt is the plain
general-knowledge framing; it does not end with the gemma empty
assistant-turn opener and does not contain the gemma user-turn wrapping of
the message. -/
theorem c6_template_counterexample :
    buildConversationPrompt [] [] "Hi"
      = "Question: Hi\n\nAnswer based on your general knowledge: "
    ∧ ¬ ((templateAssistantOpener ChatTemplate.gemma).data
        <:+ (buildConversationPrompt [] [] "Hi").data)
    ∧ ¬ ((templateUserWrap ChatTemplate.gemma "Hi").data
        <:+: (buildConversationPrompt [] [] "Hi").data) := by
  refine ⟨rfl, ?_, ?_⟩ <;> decide

/-- Claim C6 (amended): with zero retrieved chunks the assembler ignores
both the template variant and the conversation history: for every variant
it returns the fixed general-knowledge framing
`"Question: {q}\n\nAnswer based on your general knowledge: "`, and in
particular (for every variant whose assistant-turn opener is a nonempty
string, i.e. all but llama) the output does not end with that opener. -/
theorem c6_no_evidence_ignores_template (tpl : ChatTemplate)
    (messages : List Message) (q : String) :
    buildConversationPrompt [] messages q
      = "Question: " ++ q ++ "\n\n" ++ "Answer based on your general knowledge: "
    ∧ (templateAssistantOpener tpl ≠ "" →
        ¬ ((templateAssistantOpener tpl).data
          <:+ (buildConversationPrompt [] messages q).data)) := by
  refine ⟨noEvidencePrompt_eq messages q, fun h => ?_⟩
  have hne : (templateAssistantOpener tpl).data ≠ [] := by
    intro hd
    exact h (String.ext hd)
  refine not_suffix_of_getLast_ne hne ?_
  rw [noEvidencePrompt_getLast]
  cases tpl <;> decide

/-- Witness for C6 (amended) at variant gemma, empty history, message
`"Hi"`. -/
theorem c6_no_evidence_ignores_template_witness :
    templateAssistantOpener ChatTemplate.gemma ≠ ""
    ∧ ¬ ((templateAssistantOpener ChatTemplate.gemma).data
        <:+ (buildConversationPrompt [] [] "Hi").data) :=
  ⟨by decide, (c6_no_evidence_ignores_template ChatTemplate.gemma [] "Hi").2 (by decide)⟩

/-! ## Chunker helper lemmas -/

/-- The exact-integer midpoint test coincides with the source's
`idx > chunkSize * 0.5` over exact arithmetic. -/
lemma midpoint_iff (n : ℕ) (x : ℤ) :
    pastMidpoint n x = true ↔ (n : ℚ) * 0.5 < (x : ℚ) := by
  unfold pastMidpoint
  rw [decide_eq_true_iff, show (0.5 : ℚ) = 1 / 2 by norm_num]
  constructor
  · intro h
    have h' : (n : ℚ) < 2 * (x : ℚ) := by exact_mod_cast h
    linarith
  · intro h
    have h' : (n : ℚ) < 2 * (x : ℚ) := by linarith
    exact_mod_cast h'

lemma pastMidpoint_pos {n : ℕ} {x : ℤ} (h : pastMidpoint n x = true) : 0 ≤ x := by
  unfold pastMidpoint at h
  rw [decide_eq_true_iff] at h
  omega

lemma getLast?_mem' {α : Type} {l : List α} {a : α} (h : l.getLast? = some a) :
    a ∈ l := by
  cases l with
  | nil => simp at h
  | cons x t =>
    rw [List.getLast?_eq_getLast _ (by simp)] at h
    have hmem : (x :: t).getLast (by simp) ∈ x :: t := List.getLast_mem (by simp)
    rwa [Option.some_inj.mp h] at hmem

lemma lastIndexOfSub_bound (l pat : List Char) :
    jsLastIndexOfSub l pat = -1
    ∨ (jsLastIndexOfSub l pat).toNat + pat.length ≤ l.length := by
  unfold jsLastIndexOfSub
  cases hm : ((List.range (l.length + 1)).filter
      (fun i => (l.drop i).take pat.length == pat)).getLast? with
  | none => exact Or.inl rfl
  | some j =>
    refine Or.inr ?_
    dsimp only
    have hj := List.mem_filter.mp (getLast?_mem' hm)
    have hpat : (l.drop j).take pat.length = pat := eq_of_beq hj.2
    have hlen := congrArg List.length hpat
    rw [List.length_take, List.length_drop] at hlen
    have hle : pat.length ≤ l.length - j := min_eq_left_iff.mp hlen
    have hjr : j < l.length + 1 := List.mem_range.mp hj.1
    rw [Int.toNat_natCast]
    omega

lemma lastIndexOfSub_toNat_bound {l pat : List Char}
    (h : 0 ≤ jsLastIndexOfSub l pat) :
    (jsLastIndexOfSub l pat).toNat + pat.length ≤ l.length := by
  rcases lastIndexOfSub_bound l pat with hneg | hb
  · rw [hneg] at h; exact absurd h (by norm_num)
  · exact hb

lemma sentenceCut_le (content : List Char) (start chunkSize : ℕ) :
    sentenceCut content start chunkSize ≤ start + chunkSize := by
  unfold sentenceCut
  dsimp only
  split
  · next h =>
    have hb := lastIndexOfSub_toNat_bound (pastMidpoint_pos h)
    have hw : ((content.drop start).take chunkSize).length ≤ chunkSize := by
      rw [List.length_take]; exact min_le_left ..
    simp only [List.length_singleton] at hb
    omega
  · exact le_rfl

lemma sentenceCut_gt {content : List Char} {start chunkSize overlap : ℕ}
    (hov : 2 * overlap < chunkSize) :
    start + overlap < sentenceCut content start chunkSize := by
  unfold sentenceCut
  dsimp only
  split
  · next h =>
    unfold pastMidpoint at h
    rw [decide_eq_true_iff] at h
    omega
  · omega

lemma windowEnd_le (content : List Char) (start chunkSize : ℕ) :
    windowEnd content start chunkSize ≤ start + chunkSize := by
  unfold windowEnd
  dsimp only
  split
  · next h =>
    have hb := lastIndexOfSub_toNat_bound (pastMidpoint_pos h)
    have hw2 : ((content.drop start).take
        (sentenceCut content start chunkSize - start)).length
        ≤ sentenceCut content start chunkSize - start := by
      rw [List.length_take]; exact min_le_left ..
    have hsc := sentenceCut_le content start chunkSize
    simp only [List.length_cons, List.length_singleton] at hb
    omega
  · exact sentenceCut_le content start chunkSize

lemma windowEnd_gt {content : List Char} {start chunkSize overlap : ℕ}
    (hov : 2 * overlap < chunkSize) :
    start + overlap < windowEnd content start chunkSize := by
  unfold windowEnd
  dsimp only
  split
  · next h =>
    unfold pastMidpoint at h
    rw [decide_eq_true_iff] at h
    omega
  · exact sentenceCut_gt hov

lemma dropWhile_dropWhile (p : Char → Bool) (l : List Char) :
    List.dropWhile p (List.dropWhile p l) = List.dropWhile p l := by
  induction l with
  | nil => rfl
  | cons c t ih =>
    cases hc : p c with
    | true => simp [List.dropWhile_cons, hc, ih]
    | false => simp [List.dropWhile_cons, hc]

lemma trimLeft_of_isPrefix {l : List Char} (h : trimLeftChars l = l)
    {y : List Char} (hy : y <+: l) : trimLeftChars y = y := by
  cases y with
  | nil => rfl
  | cons a t =>
    obtain ⟨r, hr⟩ := hy
    have ha : isWS a = false := by
      cases hcon : isWS a with
      | false => rfl
      | true =>
        unfold trimLeftChars at h
        rw [← hr, List.cons_append, List.dropWhile_cons, hcon] at h
        simp only [if_true] at h
        have hsub := (List.dropWhile_sublist isWS :
          (List.dropWhile isWS (t ++ r)).Sublist (t ++ r)).length_le
        rw [h] at hsub
        simp [List.length_append] at hsub
    unfold trimLeftChars
    rw [List.dropWhile_cons, ha]
    simp

lemma trimRight_isPrefix (l : List Char) : trimRightChars l <+: l := by
  unfold trimRightChars
  rw [← List.reverse_suffix, List.reverse_reverse]
  exact List.dropWhile_suffix isWS

lemma trimChars_idem (l : List Char) : trimChars (trimChars l) = trimChars l := by
  unfold trimChars
  have hzz : trimLeftChars (trimLeftChars l) = trimLeftChars l :=
    dropWhile_dropWhile isWS l
  rw [trimLeft_of_isPrefix hzz (trimRight_isPrefix (trimLeftChars l))]
  unfold trimRightChars
  rw [List.reverse_reverse, dropWhile_dropWhile]

lemma trimChars_sublist (l : List Char) : (trimChars l).Sublist l := by
  unfold trimChars trimRightChars trimLeftChars
  have h1 : ((l.dropWhile isWS).reverse.dropWhile isWS).Sublist
      (l.dropWhile isWS).reverse := List.dropWhile_sublist isWS
  have h2 := h1.reverse
  rw [List.reverse_reverse] at h2
  exact h2.trans (List.dropWhile_sublist isWS)

lemma windowChunk_length_le (content : List Char) (start chunkSize : ℕ) :
    (windowChunk content start chunkSize).length ≤ chunkSize := by
  unfold windowChunk
  have h1 := (trimChars_sublist
    ((content.drop start).take (windowEnd content start chunkSize - start))).length_le
  have h2 : ((content.drop start).take
      (windowEnd content start chunkSize - start)).length
      ≤ windowEnd content start chunkSize - start := by
    rw [List.length_take]; exact min_le_left ..
  have h3 := windowEnd_le content start chunkSize
  omega

lemma chunkAux_mem_spec (content : List Char) (chunkSize overlap : ℕ) :
    ∀ (fuel start : ℕ) (res : List (List Char)),
      chunkAux content chunkSize overlap fuel start = some res →
      ∀ c ∈ res, c.length ≤ chunkSize ∧ trimChars c = c ∧ c ≠ [] := by
  intro fuel
  induction fuel with
  | zero => intro start res h; exact absurd h (by simp [chunkAux])
  | succ fuel ih =>
    intro start res h
    rw [chunkAux] at h
    split at h
    · cases hrec : chunkAux content chunkSize overlap fuel
          (windowEnd content start chunkSize - overlap) with
      | none => rw [hrec] at h; simp at h
      | some rest =>
        rw [hrec] at h
        simp only [Option.some_inj] at h
        intro c hc
        rw [← h] at hc
        by_cases hchunk : (windowChunk content start chunkSize).length > 0
        · rw [if_pos hchunk] at hc
          rcases List.mem_cons.mp hc with hceq | hcrest
          · subst hceq
            exact ⟨windowChunk_length_le content start chunkSize,
              trimChars_idem _, by
                intro hnil
                rw [hnil] at hchunk
                simp at hchunk⟩
          · exact ih _ _ hrec c hcrest
        · rw [if_neg hchunk] at hc
          exact ih _ _ hrec c hc
    · simp only [Option.some_inj] at h
      rw [← h]
      intro c hc
      simp at hc

lemma chunkAux_isSome (content : List Char) {chunkSize overlap : ℕ}
    (hov : 2 * overlap < chunkSize) :
    ∀ (fuel start : ℕ), content.length - start < fuel →
      (chunkAux content chunkSize overlap fuel start).isSome = true := by
  intro fuel
  induction fuel with
  | zero => intro start h; exact absurd h (by omega)
  | succ fuel ih =>
    intro start h
    rw [chunkAux]
    split
    · next hlt =>
      have hgt : start + overlap < windowEnd content start chunkSize :=
        windowEnd_gt hov
      have hrec := ih (windowEnd content start chunkSize - overlap) (by omega)
      obtain ⟨rest, hrest⟩ := Option.isSome_iff_exists.mp hrec
      rw [hrest]
      rfl
    · simp

/-- Claim C9: with `2 * overlap < chunkSize` (in particular with the
defaults 500/50) the chunking loop terminates - `content.length + 1` fuel
suffices because the advancing start offset strictly increases - and every
returned chunk is already trimmed and nonempty (whitespace-only chunks are
dropped). -/
theorem c9_chunker_terminates (content : List Char) (chunkSize overlap : ℕ)
    (hov : 2 * overlap < chunkSize) :
    chunkAux content chunkSize overlap (content.length + 1) 0
        = some (chunkDocument content chunkSize overlap)
    ∧ ∀ c ∈ chunkDocument content chunkSize overlap, trimChars c = c ∧ c ≠ [] := by
  have hs := chunkAux_isSome content hov (content.length + 1) 0 (by omega)
  obtain ⟨res, hres⟩ := Option.isSome_iff_exists.mp hs
  have hdoc : chunkDocument content chunkSize overlap = res := by
    unfold chunkDocument
    rw [hres]
    rfl
  constructor
  · rw [hdoc]; exact hres
  · intro c hc
    have := chunkAux_mem_spec content chunkSize overlap _ _ _ hres c (hdoc ▸ hc)
    exact ⟨this.2.1, this.2.2⟩

/-- Witness for C9 with the default parameters on a concrete document. -/
theorem c9_chunker_terminates_witness :
    2 * 50 < 500
    ∧ chunkAux "hello world".data 500 50 ("hello world".data.length + 1) 0
        = some (chunkDocument "hello world".data 500 50) :=
  ⟨by decide, (c9_chunker_terminates "hello world".data 500 50 (by decide)).1⟩

lemma chunkDocument_length_le (content : List Char) (chunkSize overlap : ℕ) :
    ∀ c ∈ chunkDocument content chunkSize overlap, c.length ≤ chunkSize := by
  intro c hc
  unfold chunkDocument at hc
  cases h : chunkAux content chunkSize overlap (content.length + 1) 0 with
  | none => rw [h] at hc; simp at hc
  | some res =>
    rw [h] at hc
    exact (chunkAux_mem_spec content chunkSize overlap _ _ _ h c hc).1

/-- Claim C10 counterexample (the claim is an existential, so its negation
is proved): with `size = 500`, `overlap = 50` no input text ever yields a
chunk longer than 500 characters - the sentence/paragraph adjustments only
shorten the window, so a hard maximum IS enforced. -/
theorem c10_overshoot_counterexample :
    ¬ ∃ (content : List Char) (c : List Char),
        c ∈ chunkDocument content 500 50 ∧ 500 < c.length := by
  rintro ⟨content, c, hc, hlen⟩
  exact absurd (chunkDocument_length_le content 500 50 c hc) (by omega)

/-- Claim C10 (amended): every chunk emitted under the default parameters
`size = 500`, `overlap = 50` has length at most 500; the cut preferences
can only shorten the raw window, never overshoot it. -/
theorem c10_chunk_length_hard_max (content : List Char) (c : List Char)
    (hc : c ∈ chunkDocument content 500 50) : c.length ≤ 500 :=
  chunkDocument_length_le content 500 50 c hc

/-- Witness for C10 (amended) on a concrete input. -/
theorem c10_chunk_length_hard_max_witness :
    ('h' :: 'i' :: []) ∈ chunkDocument "hi".data 500 50
    ∧ ('h' :: 'i' :: []).length ≤ 500 :=
  ⟨by decide, c10_chunk_length_hard_max "hi".data _ (by decide)⟩

/-- Claim C5 counterexample: on `"abcdef\n\n.x"` with `size = 10`,
`overlap = 2` the first window's last `'.'` (index 8) lies past the
midpoint 5, yet the emitted first chunk is `"abcdef"` - cut at the
paragraph break - because the paragraph test runs after the sentence cut
and overrides it; the cut rule exactly as the claim states it would
instead produce `"abcdef\n\n."`. -/
theorem c5_cut_priority_counterexample :
    chunkDocument "abcdef\n\n.x".data 10 2 = ["abcdef".data, ".x".data]
    ∧ claimedChunkDocument "abcdef\n\n.x".data 10 2
        = ["abcdef\n\n.".data, ".x".data]
    ∧ chunkDocument "abcdef\n\n.x".data 10 2
        ≠ claimedChunkDocument "abcdef\n\n.x".data 10 2
    ∧ pastMidpoint 10 (jsLastIndexOfSub
        (("abcdef\n\n.x".data.drop 0).take 10) ['.']) = true := by
  refine ⟨?_, ?_, ?_, ?_⟩ <;> decide

/-- Claim C5 (amended): the sentence rule is applied first, but the
paragraph rule is then applied to the (possibly already truncated) window
and OVERRIDES the sentence cut whenever the last `"\n\n"` of that
truncated window lies past the midpoint; only when the paragraph rule does
not fire does the sentence cut (or, failing that, the raw window boundary)
stand.  The final conjunct ties the executable midpoint test to the
source's `idx > chunkSize * 0.5` over exact arithmetic. -/
theorem c5_cut_priority (content : List Char) (start chunkSize : ℕ) :
    (pastMidpoint chunkSize (jsLastIndexOfSub ((content.drop start).take
          (sentenceCut content start chunkSize - start)) ['\n', '\n']) = true →
      windowEnd content start chunkSize
        = start + (jsLastIndexOfSub ((content.drop start).take
            (sentenceCut content start chunkSize - start)) ['\n', '\n']).toNat + 2)
    ∧ (pastMidpoint chunkSize (jsLastIndexOfSub ((content.drop start).take
          (sentenceCut content start chunkSize - start)) ['\n', '\n']) = false →
      windowEnd content start chunkSize = sentenceCut content start chunkSize)
    ∧ (pastMidpoint chunkSize (jsLastIndexOfSub
          ((content.drop start).take chunkSize) ['.']) = true →
      sentenceCut content start chunkSize
        = start + (jsLastIndexOfSub
            ((content.drop start).take chunkSize) ['.']).toNat + 1)
    ∧ (pastMidpoint chunkSize (jsLastIndexOfSub
          ((content.drop start).take chunkSize) ['.']) = false →
      sentenceCut content start chunkSize = start + chunkSize)
    ∧ (∀ x : ℤ, pastMidpoint chunkSize x = true ↔ (chunkSize : ℚ) * 0.5 < (x : ℚ)) := by
  refine ⟨fun h => ?_, fun h => ?_, fun h => ?_, fun h => ?_,
    fun x => midpoint_iff chunkSize x⟩
  · unfold windowEnd; dsimp only; rw [h]; simp
  · unfold windowEnd; dsimp only; rw [h]; simp
  · unfold sentenceCut; dsimp only; rw [h]; simp
  · unfold sentenceCut; dsimp only; rw [h]; simp

/-- Witness for C5 (amended): on the counterexample input the paragraph
rule fires inside the sentence-truncated window and determines the cut. -/
theorem c5_cut_priority_witness :
    pastMidpoint 10 (jsLastIndexOfSub (("abcdef\n\n.x".data.drop 0).take
        (sentenceCut "abcdef\n\n.x".data 0 10 - 0)) ['\n', '\n']) = true
    ∧ windowEnd "abcdef\n\n.x".data 0 10
        = 0 + (jsLastIndexOfSub (("abcdef\n\n.x".data.drop 0).take
            (sentenceCut "abcdef\n\n.x".data 0 10 - 0)) ['\n', '\n']).toNat + 2 :=
  ⟨by decide, (c5_cut_priority "abcdef\n\n.x".data 0 10).1 (by decide)⟩

/-! ## C2 - document-priority prompt assembly -/

lemma foldl_append_init (t : List String) (s : String) :
    t.foldl (· ++ ·) s = s ++ t.foldl (· ++ ·) "" := by
  induction t generalizing s with
  | nil => exact (String.append_empty s).symm
  | cons b t ih =>
    rw [List.foldl_cons, List.foldl_cons, String.empty_append, ih, ih b,
      String.append_assoc]

lemma string_join_cons (x : String) (t : List String) :
    String.join (x :: t) = x ++ String.join t := by
  show (x :: t).foldl (· ++ ·) "" = x ++ t.foldl (· ++ ·) ""
  rw [List.foldl_cons, String.empty_append]
  exact foldl_append_init t x

lemma foldl_chunkBlock (l : List (ℕ × DocumentChunk)) (init : String) :
    l.foldl (fun p ic => p ++ chunkBlock ic) init
      = init ++ String.join (l.map chunkBlock) := by
  induction l generalizing init with
  | nil =>
    rw [List.foldl_nil, List.map_nil, show String.join [] = "" from rfl,
      String.append_empty]
  | cons a t ih =>
    rw [List.foldl_cons, ih, List.map_cons, string_join_cons, String.append_assoc]

lemma block_infix_join (l : List (ℕ × DocumentChunk)) :
    ∀ p ∈ l, (chunkBlock p).data <:+: (String.join (l.map chunkBlock)).data := by
  induction l with
  | nil => intro p hp; simp at hp
  | cons a t ih =>
    intro p hp
    rw [List.map_cons, string_join_cons, String.data_append]
    rcases List.mem_cons.mp hp with hpa | hpt
    · subst hpa
      exact ⟨[], (String.join (t.map chunkBlock)).data, by simp⟩
    · exact (ih p hpt).trans ⟨(chunkBlock a).data, [], by simp⟩

lemma mem_enum_of_mem {c : DocumentChunk} {l : List DocumentChunk} (hc : c ∈ l) :
    ∃ p ∈ l.enum, p.2 = c := by
  have hmem : c ∈ l.enum.map Prod.snd := by rw [List.enum_map_snd]; exact hc
  obtain ⟨p, hp, hpc⟩ := List.mem_map.mp hmem
  exact ⟨p, hp, hpc⟩

lemma ragPrompt_eq_spec (messages : List Message) (q : String)
    (chunks : List DocumentChunk) (h : chunks ≠ []) :
    buildConversationPrompt chunks messages q = ragPromptSpec chunks q := by
  have hlen : chunks.length > 0 := List.length_pos.mpr h
  unfold buildConversationPrompt
  rw [if_pos hlen]
  dsimp only
  rw [foldl_chunkBlock, String.empty_append]
  rfl

lemma join_infix_spec (chunks : List DocumentChunk) (q : String) :
    (String.join (chunks.enum.map chunkBlock)).data <:+: (ragPromptSpec chunks q).data :=
  ⟨(ragPreamble ++ "REFERENCE DOCUMENTS:\n" ++ "====================\n").data,
    ("QUESTION: " ++ q ++ "\n\n" ++ ragInstructions ++ "ANSWER: ").data,
    by simp [ragPromptSpec, String.data_append, List.append_assoc]⟩

/-- Claim C2: with at least one retrieved chunk the assembled prompt is
exactly preamble + labeled chunks + literal question + instruction block
(the early-return RAG shape), it is independent of the conversation
history (no history turn wrapping is emitted), it contains the question
verbatim, and it contains every chunk's source document id and content. -/
theorem c2_rag_prompt_priority (messages : List Message) (q : String)
    (chunks : List DocumentChunk) (h : chunks ≠ []) :
    buildConversationPrompt chunks messages q = ragPromptSpec chunks q
    ∧ buildConversationPrompt chunks messages q = buildConversationPrompt chunks [] q
    ∧ ("QUESTION: " ++ q).data <:+: (buildConversationPrompt chunks messages q).data
    ∧ ∀ c ∈ chunks,
        c.documentId.data <:+: (buildConversationPrompt chunks messages q).data
        ∧ c.content.data <:+: (buildConversationPrompt chunks messages q).data := by
  have h1 := ragPrompt_eq_spec messages q chunks h
  refine ⟨h1, rfl, ?_, ?_⟩
  · rw [h1]
    exact ⟨(ragPreamble ++ "REFERENCE DOCUMENTS:\n" ++ "====================\n"
        ++ String.join (chunks.enum.map chunkBlock)).data,
      ("\n\n" ++ ragInstructions ++ "ANSWER: ").data,
      by simp [ragPromptSpec, String.data_append, List.append_assoc]⟩
  · intro c hc
    obtain ⟨p, hp, hpc⟩ := mem_enum_of_mem hc
    have hblock := block_infix_join chunks.enum p hp
    have hjoin := join_infix_spec chunks q
    have hdoc : p.2.documentId.data <:+: (chunkBlock p).data :=
      ⟨("[DOCUMENT " ++ toString (p.1 + 1) ++ " - ").data,
        ("]:\n" ++ p.2.content ++ "\n\n").data,
        by simp [chunkBlock, String.data_append, List.append_assoc]⟩
    have hcontent : p.2.content.data <:+: (chunkBlock p).data :=
      ⟨("[DOCUMENT " ++ toString (p.1 + 1) ++ " - " ++ p.2.documentId ++ "]:\n").data,
        "\n\n".data,
        by simp [chunkBlock, String.data_append, List.append_assoc]⟩
    rw [h1, ← hpc]
    exact ⟨(hdoc.trans hblock).trans hjoin, (hcontent.trans hblock).trans hjoin⟩

/-- Witness for C2 at a single concrete retrieved chunk. -/
theorem c2_rag_prompt_priority_witness :
    ([sampleChunk] ≠ [])
    ∧ buildConversationPrompt [sampleChunk] [] "What is the capital?"
        = ragPromptSpec [sampleChunk] "What is the capital?" :=
  ⟨by simp, (c2_rag_prompt_priority [] "What is the capital?" [sampleChunk] (by simp)).1⟩

/-! ## C3/C4 - similarity scoring and retrieval -/

lemma foldl_sq_nonneg (l : List ℚ) :
    ∀ acc : ℚ, 0 ≤ acc → 0 ≤ l.foldl (fun sum val => sum + val * val) acc := by
  induction l with
  | nil => intro acc h; exact h
  | cons v t ih =>
    intro acc h
    rw [List.foldl_cons]
    exact ih _ (by nlinarith [mul_self_nonneg v])

lemma jsMag2_nonneg (l : List ℚ) : 0 ≤ jsMag2 l := foldl_sq_nonneg l 0 le_rfl

lemma foldl_dot_zero (b : List ℚ) :
    ∀ (n : ℕ) (acc : ℚ),
      ((List.replicate n (0 : ℚ)).zip b).foldl (fun sum p => sum + p.1 * p.2) acc
        = acc := by
  induction b with
  | nil => intro n acc; rw [List.zip_nil_right]; rfl
  | cons x t ih =>
    intro n acc
    cases n with
    | zero => rfl
    | succ n =>
      rw [List.replicate_succ, List.zip_cons_cons, List.foldl_cons]
      simp only [zero_mul, add_zero]
      exact ih n acc

lemma jsDot_replicate_zero (b : List ℚ) (n : ℕ) :
    jsDot (List.replicate n 0) b = 0 :=
  foldl_dot_zero b n 0

lemma foldl_sq_zero : ∀ (n : ℕ) (acc : ℚ),
    (List.replicate n (0 : ℚ)).foldl (fun sum val => sum + val * val) acc = acc := by
  intro n
  induction n with
  | zero => intro acc; rfl
  | succ n ih =>
    intro acc
    rw [List.replicate_succ, List.foldl_cons]
    simp only [mul_zero, add_zero]
    exact ih acc

lemma jsMag2_replicate_zero (n : ℕ) : jsMag2 (List.replicate n 0) = 0 :=
  foldl_sq_zero n 0

lemma cos_dot (a b : List ℚ) : (cosineSimilarity a b).dot = jsDot a b := rfl

lemma cos_magA2 (a b : List ℚ) : (cosineSimilarity a b).magA2 = jsMag2 a := rfl

lemma cos_magB2 (a b : List ℚ) : (cosineSimilarity a b).magB2 = jsMag2 b := rfl

lemma cos_nan_eq (a b : List ℚ) :
    (cosineSimilarity a b).nan
      = (decide (b.length < a.length) || decide (jsMag2 a * jsMag2 b = 0)) := rfl

lemma scoreAbove_eq (s : SimScore) :
    scoreAbove s
      = (!s.nan && decide (0 < s.dot)
          && decide (9 * (s.magA2 * s.magB2) < 100 * s.dot ^ 2)) := rfl

lemma simValue_eq (s : SimScore) :
    simValue s
      = (s.dot : ℝ) / (Real.sqrt (s.magA2 : ℝ) * Real.sqrt (s.magB2 : ℝ)) := rfl

/-- What passing the `> 0.3` filter tells us about a score produced by
`cosineSimilarity`. -/
lemma scoreAbove_cos {a b : List ℚ}
    (h : scoreAbove (cosineSimilarity a b) = true) :
    0 < (cosineSimilarity a b).dot
    ∧ 0 < (cosineSimilarity a b).magA2
    ∧ 0 < (cosineSimilarity a b).magB2
    ∧ (cosineSimilarity a b).nan = false
    ∧ 9 * ((cosineSimilarity a b).magA2 * (cosineSimilarity a b).magB2)
        < 100 * (cosineSimilarity a b).dot ^ 2 := by
  rw [scoreAbove_eq, Bool.and_eq_true, Bool.and_eq_true] at h
  obtain ⟨⟨hn, hd⟩, h9⟩ := h
  have hd' : 0 < (cosineSimilarity a b).dot := of_decide_eq_true hd
  have h9' := of_decide_eq_true h9
  have hnan : (cosineSimilarity a b).nan = false := by
    cases hcase : (cosineSimilarity a b).nan with
    | false => rfl
    | true => rw [hcase] at hn; simp at hn
  have hAB : jsMag2 a * jsMag2 b ≠ 0 := by
    rw [cos_nan_eq] at hnan
    rcases Bool.or_eq_false_iff.mp hnan with ⟨-, h2⟩
    exact of_decide_eq_false h2
  have hA0 : jsMag2 a ≠ 0 := (mul_ne_zero_iff.mp hAB).1
  have hB0 : jsMag2 b ≠ 0 := (mul_ne_zero_iff.mp hAB).2
  have hA : 0 < (cosineSimilarity a b).magA2 :=
    lt_of_le_of_ne (jsMag2_nonneg a) (Ne.symm hA0)
  have hB : 0 < (cosineSimilarity a b).magB2 :=
    lt_of_le_of_ne (jsMag2_nonneg b) (Ne.symm hB0)
  exact ⟨hd', hA, hB, hnan, h9'⟩

/-- Exact rational threshold test implies the real score exceeds `3/10`. -/
lemma threshold_real {d A B : ℚ} (hd : 0 < d) (hA : 0 < A) (hB : 0 < B)
    (h9 : 9 * (A * B) < 100 * d ^ 2) :
    (3 / 10 : ℝ) < (d : ℝ) / (Real.sqrt (A : ℝ) * Real.sqrt (B : ℝ)) := by
  have hA' : (0 : ℝ) < A := by exact_mod_cast hA
  have hB' : (0 : ℝ) < B := by exact_mod_cast hB
  have hd' : (0 : ℝ) < d := by exact_mod_cast hd
  have h9' : 9 * ((A : ℝ) * B) < 100 * (d : ℝ) ^ 2 := by exact_mod_cast h9
  have hsA0 : 0 < Real.sqrt (A : ℝ) := Real.sqrt_pos.mpr hA'
  have hsB0 : 0 < Real.sqrt (B : ℝ) := Real.sqrt_pos.mpr hB'
  have hS : 0 < Real.sqrt (A : ℝ) * Real.sqrt (B : ℝ) := mul_pos hsA0 hsB0
  rw [lt_div_iff₀ hS]
  have hsq : (3 / 10 * (Real.sqrt (A : ℝ) * Real.sqrt (B : ℝ))) ^ 2 < (d : ℝ) ^ 2 := by
    have h1 : Real.sqrt (A : ℝ) ^ 2 = (A : ℝ) := Real.sq_sqrt hA'.le
    have h2 : Real.sqrt (B : ℝ) ^ 2 = (B : ℝ) := Real.sq_sqrt hB'.le
    have hexp : (3 / 10 * (Real.sqrt (A : ℝ) * Real.sqrt (B : ℝ))) ^ 2
        = 9 / 100 * ((A : ℝ) * B) := by
      rw [mul_pow, mul_pow, h1, h2]; ring
    rw [hexp]; nlinarith
  exact lt_of_pow_lt_pow_left₀ 2 hd'.le hsq

/-- The computable `scoreKey` comparison implies the real-score comparison
on positive components. -/
lemma key_mono_real {dx Ax Bx dy Ay By : ℚ}
    (hdx : 0 < dx) (hAx : 0 < Ax) (hBx : 0 < Bx)
    (hdy : 0 < dy) (hAy : 0 < Ay) (hBy : 0 < By)
    (hkey : dy ^ 2 / (Ay * By) ≤ dx ^ 2 / (Ax * Bx)) :
    (dy : ℝ) / (Real.sqrt (Ay : ℝ) * Real.sqrt (By : ℝ))
      ≤ (dx : ℝ) / (Real.sqrt (Ax : ℝ) * Real.sqrt (Bx : ℝ)) := by
  have hAx' : (0 : ℝ) < Ax := by exact_mod_cast hAx
  have hBx' : (0 : ℝ) < Bx := by exact_mod_cast hBx
  have hAy' : (0 : ℝ) < Ay := by exact_mod_cast hAy
  have hBy' : (0 : ℝ) < By := by exact_mod_cast hBy
  have hdx' : (0 : ℝ) < dx := by exact_mod_cast hdx
  have hdy' : (0 : ℝ) < dy := by exact_mod_cast hdy
  have hvx0 : 0 < (dx : ℝ) / (Real.sqrt (Ax : ℝ) * Real.sqrt (Bx : ℝ)) :=
    div_pos hdx' (mul_pos (Real.sqrt_pos.mpr hAx') (Real.sqrt_pos.mpr hBx'))
  have hvy0 : 0 < (dy : ℝ) / (Real.sqrt (Ay : ℝ) * Real.sqrt (By : ℝ)) :=
    div_pos hdy' (mul_pos (Real.sqrt_pos.mpr hAy') (Real.sqrt_pos.mpr hBy'))
  have hvx2 : ((dx : ℝ) / (Real.sqrt (Ax : ℝ) * Real.sqrt (Bx : ℝ))) ^ 2
      = (dx : ℝ) ^ 2 / ((Ax : ℝ) * Bx) := by
    rw [div_pow, mul_pow, Real.sq_sqrt hAx'.le, Real.sq_sqrt hBx'.le]
  have hvy2 : ((dy : ℝ) / (Real.sqrt (Ay : ℝ) * Real.sqrt (By : ℝ))) ^ 2
      = (dy : ℝ) ^ 2 / ((Ay : ℝ) * By) := by
    rw [div_pow, mul_pow, Real.sq_sqrt hAy'.le, Real.sq_sqrt hBy'.le]
  have hkey' : ((dy : ℝ) / (Real.sqrt (Ay : ℝ) * Real.sqrt (By : ℝ))) ^ 2
      ≤ ((dx : ℝ) / (Real.sqrt (Ax : ℝ) * Real.sqrt (Bx : ℝ))) ^ 2 := by
    rw [hvx2, hvy2]
    have : ((dy ^ 2 / (Ay * By) : ℚ) : ℝ) ≤ ((dx ^ 2 / (Ax * Bx) : ℚ) : ℝ) := by
      exact_mod_cast hkey
    push_cast at this
    exact this
  calc (dy : ℝ) / (Real.sqrt (Ay : ℝ) * Real.sqrt (By : ℝ))
      = Real.sqrt (((dy : ℝ) / (Real.sqrt (Ay : ℝ) * Real.sqrt (By : ℝ))) ^ 2) :=
        (Real.sqrt_sq hvy0.le).symm
    _ ≤ Real.sqrt (((dx : ℝ) / (Real.sqrt (Ax : ℝ) * Real.sqrt (Bx : ℝ))) ^ 2) :=
        Real.sqrt_le_sqrt hkey'
    _ = (dx : ℝ) / (Real.sqrt (Ax : ℝ) * Real.sqrt (Bx : ℝ)) := Real.sqrt_sq hvx0.le

lemma scoreKey_pos_form {s : SimScore} (hd : 0 < s.dot) :
    scoreKey s = s.dot ^ 2 / (s.magA2 * s.magB2) := by
  unfold scoreKey
  rw [if_neg (not_lt.mpr hd.le), one_mul]

lemma chunkGE_trans (x y z : DocumentChunk × SimScore)
    (hxy : chunkGE x y = true) (hyz : chunkGE y z = true) : chunkGE x z = true := by
  unfold chunkGE at hxy hyz ⊢
  rw [decide_eq_true_iff] at hxy hyz ⊢
  exact le_trans hyz hxy

lemma chunkGE_total (x y : DocumentChunk × SimScore) :
    (chunkGE x y || chunkGE y x) = true := by
  unfold chunkGE
  rcases le_total (scoreKey y.2) (scoreKey x.2) with h | h <;> simp [h]

lemma chunkGE_to_simValue {q : List ℚ} {x y : DocumentChunk × SimScore}
    (hx2 : x.2 = cosineSimilarity q x.1.embedding)
    (hy2 : y.2 = cosineSimilarity q y.1.embedding)
    (hax : scoreAbove x.2 = true) (hay : scoreAbove y.2 = true)
    (hge : chunkGE x y = true) :
    simValue (cosineSimilarity q y.1.embedding)
      ≤ simValue (cosineSimilarity q x.1.embedding) := by
  rw [hx2] at hax
  rw [hy2] at hay
  obtain ⟨hdx, hAx, hBx, -, -⟩ := scoreAbove_cos hax
  obtain ⟨hdy, hAy, hBy, -, -⟩ := scoreAbove_cos hay
  unfold chunkGE at hge
  rw [decide_eq_true_iff, hx2, hy2, scoreKey_pos_form hdx, scoreKey_pos_form hdy]
    at hge
  rw [simValue_eq, simValue_eq]
  exact key_mono_real hdx hAx hBx hdy hAy hBy hge

lemma mock_filter_nil (t : String) (docs : List StoredDocument) :
    ((allChunksOf docs).map (fun chunk =>
        (chunk, cosineSimilarity (generateMockEmbedding t) chunk.embedding))).filter
      (fun item => scoreAbove item.2) = [] := by
  refine List.filter_eq_nil_iff.mpr ?_
  intro x hx
  obtain ⟨c, hc, rfl⟩ := List.mem_map.mp hx
  have hmag : jsMag2 (generateMockEmbedding t) = 0 := by
    rw [generateMockEmbedding_eq_zero]; exact jsMag2_replicate_zero 512
  have hnan : (cosineSimilarity (generateMockEmbedding t) c.embedding).nan = true := by
    rw [cos_nan_eq, hmag]
    simp
  rw [scoreAbove_eq, hnan]
  simp

/-- Claim C4: the fallback embedding is the all-zero 512-vector (every slot
update computes `(0+1) % 1.0 = 0`), so whenever a query is embedded via
the fallback every cosine similarity has numerator 0 and zero magnitude -
i.e. it is the `NaN` of `0/0` - the `> 0.3` filter discards every chunk,
and retrieval returns the empty sequence. -/
theorem c4_zero_fallback_empty_retrieval (t : String)
    (docs : List StoredDocument) (k : ℕ) (b : List ℚ) :
    generateMockEmbedding t = List.replicate 512 0
    ∧ (cosineSimilarity (generateMockEmbedding t) b).dot = 0
    ∧ (cosineSimilarity (generateMockEmbedding t) b).magA2 = 0
    ∧ (cosineSimilarity (generateMockEmbedding t) b).nan = true
    ∧ scoreAbove (cosineSimilarity (generateMockEmbedding t) b) = false
    ∧ searchDocuments (generateMockEmbedding t) docs k = [] := by
  have hz := generateMockEmbedding_eq_zero t
  have hmag : (cosineSimilarity (generateMockEmbedding t) b).magA2 = 0 := by
    rw [cos_magA2, hz]; exact jsMag2_replicate_zero 512
  have hdot : (cosineSimilarity (generateMockEmbedding t) b).dot = 0 := by
    rw [cos_dot, hz]; exact jsDot_replicate_zero b 512
  have hnan : (cosineSimilarity (generateMockEmbedding t) b).nan = true := by
    rw [cos_nan_eq]
    rw [cos_magA2] at hmag
    rw [hmag]
    simp
  have habove : scoreAbove (cosineSimilarity (generateMockEmbedding t) b) = false := by
    rw [scoreAbove_eq, hnan]; simp
  refine ⟨hz, hdot, hmag, hnan, habove, ?_⟩
  show ((((((allChunksOf docs).map (fun chunk =>
      (chunk, cosineSimilarity (generateMockEmbedding t) chunk.embedding))).filter
        (fun item => scoreAbove item.2)).mergeSort chunkGE).take k).map
          (fun item => item.1)) = []
  rw [mock_filter_nil, List.mergeSort_nil]
  simp

/-- Claim C3: retrieval returns at most `k` chunks, sorted in descending
order of the real cosine-similarity score; every returned chunk has a
non-`NaN` score strictly above the `0.3` floor; an empty store yields the
empty sequence, and so does a store in which no chunk passes the floor
(zero relevant chunks is an outcome, not an error). -/
theorem c3_retrieval_contract (q : List ℚ) (docs : List StoredDocument) (k : ℕ) :
    (searchDocuments q docs k).length ≤ k
    ∧ (searchDocuments q docs k).Pairwise (fun c1 c2 =>
        simValue (cosineSimilarity q c2.embedding)
          ≤ simValue (cosineSimilarity q c1.embedding))
    ∧ (∀ c ∈ searchDocuments q docs k,
        (cosineSimilarity q c.embedding).nan = false
        ∧ (3 / 10 : ℝ) < simValue (cosineSimilarity q c.embedding))
    ∧ searchDocuments q [] k = []
    ∧ ((∀ c ∈ allChunksOf docs,
          scoreAbove (cosineSimilarity q c.embedding) = false) →
        searchDocuments q docs k = []) := by
  have hsearch : searchDocuments q docs k
      = ((((((allChunksOf docs).map (fun chunk =>
          (chunk, cosineSimilarity q chunk.embedding))).filter
            (fun item => scoreAbove item.2)).mergeSort chunkGE).take k).map
              (fun item => item.1)) := rfl
  have hmem_scored : ∀ x ∈ (((((allChunksOf docs).map (fun chunk =>
      (chunk, cosineSimilarity q chunk.embedding))).filter
        (fun item => scoreAbove item.2)).mergeSort chunkGE).take k),
      x ∈ (allChunksOf docs).map (fun chunk =>
        (chunk, cosineSimilarity q chunk.embedding)) := fun x hx =>
    List.mem_of_mem_filter (List.mem_mergeSort.mp (List.mem_of_mem_take hx))
  have hmem_flt : ∀ x ∈ (((((allChunksOf docs).map (fun chunk =>
      (chunk, cosineSimilarity q chunk.embedding))).filter
        (fun item => scoreAbove item.2)).mergeSort chunkGE).take k),
      scoreAbove x.2 = true := fun x hx =>
    (List.mem_filter.mp (List.mem_mergeSort.mp (List.mem_of_mem_take hx))).2
  have hx2 : ∀ x ∈ (allChunksOf docs).map (fun chunk =>
      (chunk, cosineSimilarity q chunk.embedding)),
      x.2 = cosineSimilarity q x.1.embedding := by
    intro x hx
    obtain ⟨c, hc, rfl⟩ := List.mem_map.mp hx
    rfl
  refine ⟨?_, ?_, ?_, ?_, ?_⟩
  · rw [hsearch, List.length_map, List.length_take]
    exact min_le_left ..
  · rw [hsearch]
    refine List.pairwise_map.mpr ?_
    have hsorted := List.sorted_mergeSort chunkGE_trans chunkGE_total
      (((allChunksOf docs).map (fun chunk =>
        (chunk, cosineSimilarity q chunk.embedding))).filter
          (fun item => scoreAbove item.2))
    have htake := List.Pairwise.sublist (List.take_sublist k _) hsorted
    refine List.Pairwise.imp_of_mem ?_ htake
    intro a b ha hb hge
    exact chunkGE_to_simValue (hx2 a (hmem_scored a ha)) (hx2 b (hmem_scored b hb))
      (hmem_flt a ha) (hmem_flt b hb) hge
  · intro c hc
    rw [hsearch] at hc
    obtain ⟨x, hx, hxc⟩ := List.mem_map.mp hc
    have h2 := hx2 x (hmem_scored x hx)
    have ha := hmem_flt x hx
    rw [h2] at ha
    obtain ⟨hd, hA, hB, hnan, h9⟩ := scoreAbove_cos ha
    rw [← hxc]
    refine ⟨hnan, ?_⟩
    rw [simValue_eq]
    exact threshold_real hd hA hB h9
  · show (((((allChunksOf ([] : List StoredDocument)).map (fun chunk =>
        (chunk, cosineSimilarity q chunk.embedding))).filter
          (fun item => scoreAbove item.2)).mergeSort chunkGE).take k).map
            (fun item => item.1) = []
    rw [show allChunksOf ([] : List StoredDocument) = [] from rfl]
    rw [List.map_nil, List.filter_nil, List.mergeSort_nil]
    simp
  · intro hall
    have hfltnil : ((allChunksOf docs).map (fun chunk =>
        (chunk, cosineSimilarity q chunk.embedding))).filter
          (fun item => scoreAbove item.2) = [] := by
      refine List.filter_eq_nil_iff.mpr ?_
      intro x hx
      obtain ⟨c, hc, rfl⟩ := List.mem_map.mp hx
      simp [hall c hc]
    rw [hsearch, hfltnil, List.mergeSort_nil]
    simp

/-- Witness for C3: the empty store yields the empty sequence (applying the
all-below-floor case at a concrete query and an empty store). -/
theorem c3_retrieval_contract_witness :
    searchDocuments [1] [] 3 = [] :=
  (c3_retrieval_contract [1] [] 3).2.2.2.2 (by intro c hc; simp [allChunksOf] at hc)
